import Mathlib

/- Shallow embedding of the d2s2d audio modem: d2s.c (the encoder) and
   s2d.c (the decoder).  Floating point values are idealized as real
   numbers; C `short`/`int` quantities are modelled as `ℤ`, unsigned
   quantities as `ℕ`; C's truncating integer division is `Int.tdiv`;
   assignment of an out-of-range integer to an unsigned field reduces
   modulo the type's width. -/

namespace D2S2D

open Real

/-- BIT_COUNT: number of carrier frequencies / bits per symbol (both sources). -/
def BIT_COUNT : ℕ := 9

/-- SAMPLE_COUNT_MIN = BIT_COUNT*2+1: least usable window length (both sources). -/
def SAMPLE_COUNT_MIN : ℕ := BIT_COUNT * 2 + 1

/-- SAMPLE_COUNT = SAMPLE_COUNT_MIN + 1: the encoder's window length (d2s.c). -/
def SAMPLE_COUNT : ℕ := SAMPLE_COUNT_MIN + 1

/-- Truncation toward zero of a real number: the C float-to-integer conversion. -/
noncomputable def ctrunc (x : ℝ) : ℤ := if 0 ≤ x then ⌊x⌋ else ⌈x⌉

/-- C round(): round half away from zero. -/
noncomputable def cround (x : ℝ) : ℤ := if 0 ≤ x then ⌊x + 1/2⌋ else ⌈x - 1/2⌉

/-- write_sample from d2s.c: clamp the amplitude to [-1, 1], scale by
0x7FFFFFFF, convert to a 32-bit word, and emit its four bytes
least-significant first. -/
noncomputable def write_sample (x : ℝ) : List ℕ :=
  let x1 := if x > 1 then 1 else x
  let x2 := if x1 < -1 then -1 else x1
  let sample : ℤ := ctrunc (x2 * 0x7FFFFFFF) % 4294967296
  [(sample % 256).toNat, (sample / 256 % 256).toNat,
   (sample / 65536 % 256).toNat, (sample / 16777216 % 256).toNat]

/-- The value of sample t of the symbol that print_byte in d2s.c synthesizes
for the 9-bit value ch at amplitude amp: the sum, over the bits b set in ch,
of the sine tone with frequency BIT_COUNT - b cycles per window. -/
noncomputable def print_byte_sample (ch : ℕ) (amp : ℝ) (t : ℕ) : ℝ :=
  amp * ∑ b ∈ Finset.range BIT_COUNT,
    (if ch &&& (1 <<< b) ≠ 0
     then Real.sin (2 * π * ((BIT_COUNT - b : ℕ) : ℝ) * (t : ℝ) / (SAMPLE_COUNT : ℝ))
     else 0)

/-- nsin from s2d.c. -/
noncomputable def nsin (f : ℝ) : ℝ := Real.sin (f * 2 * π)

/-- ncos from s2d.c. -/
noncomputable def ncos (f : ℝ) : ℝ := nsin (f + 0.25)

/-- atan2 over the reals, modelled as the argument of the complex number
x + i y, which lies in (-pi, pi] like C atan2(y, x). -/
noncomputable def atan2 (y x : ℝ) : ℝ := Complex.arg ⟨x, y⟩

/-- sincos_to_phase from s2d.c. -/
noncomputable def sincos_to_phase (x y : ℝ) : ℝ := atan2 y x / (2 * π)

/-- quad from s2d.c. -/
def quad (x : ℝ) : ℝ := x * x

/-- struct fourier from s2d.c together with its trailing sincos_components
array (one sine/cosine accumulator pair per carrier; only indices below
BIT_COUNT are ever read).  frequency_count is the constant BIT_COUNT. -/
structure Fourier where
  i : ℕ
  sample_count : ℤ
  sincos_components : ℕ → ℝ × ℝ

/-- fourier_add_sample from s2d.c: accumulate one sample into every carrier's
sine/cosine correlators and report whether the window is now complete. -/
noncomputable def fourier_add_sample (fo : Fourier) (sample : ℝ) : Fourier × Bool :=
  let upd : ℕ → ℝ × ℝ := fun f =>
    let i : ℝ := (((f + 1) * fo.i : ℕ) : ℝ) / (fo.sample_count : ℝ)
    ((fo.sincos_components f).1 + nsin i * sample * 25 / (fo.sample_count : ℝ),
     (fo.sincos_components f).2 + ncos i * sample * 25 / (fo.sample_count : ℝ))
  (⟨fo.i + 1, fo.sample_count, upd⟩, decide (((fo.i : ℤ) + 1) ≥ fo.sample_count))

/-- fourier_to_frequency from s2d.c: per-carrier power (still squared). -/
def fourier_to_frequency (fo : Fourier) : ℕ → ℝ := fun f =>
  quad (fo.sincos_components f).1 + quad (fo.sincos_components f).2

/-- fourier_reset from s2d.c: zero all accumulators and the sample index. -/
def fourier_reset (fo : Fourier) : Fourier := ⟨0, fo.sample_count, fun _ => (0, 0)⟩

/-- DECODER_RET_EOF from s2d.c. -/
def DECODER_RET_EOF : ℤ := -1

/-- DECODER_RET_NO_DATA from s2d.c. -/
def DECODER_RET_NO_DATA : ℤ := -2

/-- enum decoder_state from s2d.c. -/
inductive DState where
  | DECODER_INIT
  | DECODER_DETECT_POLARITY
  | DECODER_DETECT_WAVE_FIRST_HALF
  | DECODER_DETECT_WAVE_SECOND_HALF
  | DECODER_DETECT_CALIBRATE
  | DECODER_DECODE_DATA
  | DECODER_EOF
  deriving DecidableEq

/-- struct decoder from s2d.c (its embedded struct fourier carries the
shared sincos_components array). -/
structure Decoder where
  state : DState
  polarity : Bool
  phase : ℤ
  phase2 : ℤ
  phase3 : ℤ
  baseline : ℕ
  signal_max : ℕ
  signal_min : ℕ
  fourier : Fourier

/-- The thresholding loop of decoder_decode_byte in s2d.c: set bit
BIT_COUNT - f - 1 of the result iff carrier f's power exceeds 0.5*0.5. -/
noncomputable def decode_byte_bits (frequency : ℕ → ℝ) : ℕ :=
  (List.range BIT_COUNT).foldl
    (fun byte f =>
      if frequency f > 0.5 * 0.5 then byte ||| (1 <<< (BIT_COUNT - f - 1)) else byte) 0

/-- decoder_decode_byte from s2d.c. -/
noncomputable def decoder_decode_byte (decoder : Decoder) (sample : ℝ) : Decoder × ℤ :=
  let fa := fourier_add_sample decoder.fourier sample
  if fa.2 then
    let fo := fa.1
    let byte := decode_byte_bits (fourier_to_frequency fo)
    let ph : ℤ :=
      if byte &&& 0x100 ≠ 0 then
        cround (sincos_to_phase (fo.sincos_components 0).1 (fo.sincos_components 0).2
                * (fo.sample_count : ℝ))
      else 0
    let d1 : Decoder := { decoder with phase := ph, fourier := fourier_reset fo }
    if byte = 0 then (d1, DECODER_RET_EOF) else (d1, ((byte &&& 0xFF : ℕ) : ℤ))
  else ({ decoder with fourier := fa.1 }, DECODER_RET_NO_DATA)

/-- TIMING_SIGNAL_THRESHOLD from s2d.c. -/
def TIMING_SIGNAL_THRESHOLD : ℤ := 64

/-- decoder_update_magnitude from s2d.c. -/
def decoder_update_magnitude (decoder : Decoder) (sample : ℕ) : Decoder :=
  let d1 := if decoder.signal_max < sample then { decoder with signal_max := sample } else decoder
  if d1.signal_min > sample then { d1 with signal_min := sample } else d1

/-- The normalization computed at the top of decoder_decode in s2d.c for the
states at or past DECODER_DETECT_CALIBRATE. -/
noncomputable def normalized_sample (decoder : Decoder) (sample : ℕ) : ℝ :=
  let fsample := ((sample : ℝ) - (decoder.signal_min : ℝ)) /
                 ((decoder.signal_max : ℝ) - (decoder.signal_min : ℝ))
  if decoder.polarity then fsample else 1 - fsample

/-- The drift-correction block that appears verbatim in both the
DECODER_DETECT_CALIBRATE and the DECODER_DECODE_DATA case of decoder_decode
in s2d.c. -/
def drift_correct (d : Decoder) : Decoder :=
  if d.phase ≠ 0 ∧ d.phase2 ≠ 0 ∧ d.phase3 ≠ 0 ∧
     ((d.phase < 0) ↔ (d.phase2 < 0)) ∧ ((d.phase2 < 0) ↔ (d.phase3 < 0)) then
    { d with
      fourier := { d.fourier with
        sample_count := d.fourier.sample_count - Int.tdiv (d.phase + d.phase2 + d.phase3) 3 }
      phase2 := 0 }
  else
    { d with phase3 := d.phase2, phase2 := d.phase }

/-- The DECODER_DETECT_WAVE_FIRST_HALF case body of decoder_decode in s2d.c,
which is also reached by fallthrough from DECODER_DETECT_POLARITY within the
same invocation. -/
def detect_wave_first_half (d0 : Decoder) (sample : ℕ) : Decoder :=
  let d := { d0 with fourier := { d0.fourier with sample_count := d0.fourier.sample_count + 1 } }
  let diff : ℤ := if d.polarity then (d.signal_max : ℤ) - (sample : ℤ)
                  else (sample : ℤ) - (d.signal_min : ℤ)
  let d' := if diff > (d.signal_max : ℤ) - (d.signal_min : ℤ)
            then { d with state := .DECODER_DETECT_WAVE_SECOND_HALF } else d
  decoder_update_magnitude d' sample

/-- decoder_decode from s2d.c: the per-sample decoder step, returning the
updated decoder together with its int result (a byte, DECODER_RET_NO_DATA,
or DECODER_RET_EOF). -/
noncomputable def decoder_decode (decoder : Decoder) (sample : ℕ) : Decoder × ℤ :=
  let fsample := normalized_sample decoder sample
  match decoder.state with
  | .DECODER_INIT =>
      ({ decoder with
          baseline := sample
          state := .DECODER_DETECT_POLARITY
          fourier := { decoder.fourier with sample_count := 0 } }, DECODER_RET_NO_DATA)
  | .DECODER_DETECT_POLARITY =>
      let diff : ℤ := (sample : ℤ) - (decoder.baseline : ℤ)
      let d := decoder_update_magnitude decoder sample
      if diff > TIMING_SIGNAL_THRESHOLD ∨ diff < -TIMING_SIGNAL_THRESHOLD then
        (detect_wave_first_half
          { d with
              polarity := decide (diff > 0)
              state := .DECODER_DETECT_WAVE_FIRST_HALF
              signal_max := d.baseline
              signal_min := d.baseline } sample,
         DECODER_RET_NO_DATA)
      else
        ({ d with baseline := (((d.baseline : ℤ) + Int.tdiv diff 8) % 65536).toNat },
         DECODER_RET_NO_DATA)
  | .DECODER_DETECT_WAVE_FIRST_HALF =>
      (detect_wave_first_half decoder sample, DECODER_RET_NO_DATA)
  | .DECODER_DETECT_WAVE_SECOND_HALF =>
      let d := { decoder with
        fourier := { decoder.fourier with sample_count := decoder.fourier.sample_count + 1 } }
      let d := decoder_update_magnitude d sample
      if decide ((sample : ℤ) > (((d.signal_max + d.signal_min) / 2 : ℕ) : ℤ)) = d.polarity then
        let sc := if d.fourier.sample_count < (SAMPLE_COUNT_MIN : ℤ) then (SAMPLE_COUNT_MIN : ℤ)
                  else d.fourier.sample_count
        ({ d with
            fourier := { d.fourier with sample_count := sc }
            state := .DECODER_DETECT_CALIBRATE
            phase := 0
            phase2 := 0
            phase3 := 0 },
         DECODER_RET_NO_DATA)
      else (d, DECODER_RET_NO_DATA)
  | .DECODER_DETECT_CALIBRATE =>
      if decoder.phase < 0 then
        ({ decoder with phase := decoder.phase + 1 }, DECODER_RET_NO_DATA)
      else
        let db := decoder_decode_byte decoder fsample
        if db.2 = DECODER_RET_EOF then
          ({ db.1 with state := .DECODER_INIT }, DECODER_RET_NO_DATA)
        else if db.2 ≥ 0 then
          let d2 := drift_correct db.1
          let d3 := if db.2 = 62 then { d2 with state := .DECODER_DECODE_DATA } else d2
          let d4 := if d3.phase > 0 then (decoder_decode_byte d3 fsample).1 else d3
          (d4, DECODER_RET_NO_DATA)
        else (db.1, DECODER_RET_NO_DATA)
  | .DECODER_DECODE_DATA =>
      if decoder.phase < 0 then
        ({ decoder with phase := decoder.phase + 1 }, DECODER_RET_NO_DATA)
      else
        let db := decoder_decode_byte decoder fsample
        let d2 := if db.2 = DECODER_RET_EOF then { db.1 with state := .DECODER_EOF } else db.1
        if db.2 ≥ 0 then
          let d3 := drift_correct d2
          let d4 := if d3.phase > 0 then (decoder_decode_byte d3 fsample).1 else d3
          (d4, db.2)
        else (d2, db.2)
  | .DECODER_EOF => (decoder, DECODER_RET_EOF)

/-- The decoder as initialized in the main function of s2d.c: every field is
zero apart from frequency_count, which is the fixed BIT_COUNT and implicit
in this embedding. -/
def decoder_init : Decoder :=
  { state := .DECODER_INIT
    polarity := false
    phase := 0
    phase2 := 0
    phase3 := 0
    baseline := 0
    signal_max := 0
    signal_min := 0
    fourier := ⟨0, 0, fun _ => (0, 0)⟩ }

/-- Decoder states reachable from the initial decoder by feeding uint16
samples one at a time through decoder_decode, as the main loop of s2d.c does. -/
inductive Reachable : Decoder → Prop where
  | init : Reachable decoder_init
  | step (d : Decoder) (x : ℕ) (hx : x < 65536) (hd : Reachable d) :
      Reachable (decoder_decode d x).1

/-- A concrete analyzer with unit power on carrier 0 only. -/
def fourier_unit0 : Fourier := ⟨0, 19, fun f => if f = 0 then (1, 0) else (0, 0)⟩

/-- A concrete decoder whose next sample completes the analyzer window. -/
def window_complete_example : Decoder :=
  { decoder_init with fourier := ⟨18, 19, fun _ => (0, 0)⟩ }

/-- A concrete calibrating decoder one sample away from completing an
all-zero window. -/
def calibrate_example : Decoder :=
  { decoder_init with
    state := DState.DECODER_DETECT_CALIBRATE
    polarity := true
    signal_max := 1024
    signal_min := 0
    fourier := ⟨18, 19, fun _ => (0, 0)⟩ }

/-- Invariant carried by decoder_decode: from wave detection onward, the
tracked magnitude range exceeds TIMING_SIGNAL_THRESHOLD = 64. -/
def MagnitudeInv (d : Decoder) : Prop :=
  (d.state = DState.DECODER_DETECT_WAVE_FIRST_HALF ∨
   d.state = DState.DECODER_DETECT_WAVE_SECOND_HALF ∨
   d.state = DState.DECODER_DETECT_CALIBRATE ∨
   d.state = DState.DECODER_DECODE_DATA ∨
   d.state = DState.DECODER_EOF) →
  d.signal_min + 64 < d.signal_max

/-- A concrete decoder in the second wave-detection state about to lock. -/
def second_half_example : Decoder :=
  { decoder_init with
    state := DState.DECODER_DETECT_WAVE_SECOND_HALF
    polarity := true
    signal_max := 600
    signal_min := 400
    fourier := ⟨0, 2, fun _ => (0, 0)⟩ }

/-- A concrete calibrating decoder with unit pilot power, history (0, 7),
about to complete its window. -/
def drift_example : Decoder :=
  { decoder_init with
    state := DState.DECODER_DETECT_CALIBRATE
    polarity := true
    phase := 0
    phase2 := 0
    phase3 := 7
    signal_max := 1024
    signal_min := 0
    fourier := ⟨18, 19, fun f => if f = 0 then (1, 0) else (0, 0)⟩ }

/-- A concrete decoding-state decoder whose next sample completes an
all-zero window, so that demodulation yields end of stream. -/
def data_eof_example : Decoder :=
  { calibrate_example with
    state := DState.DECODER_DECODE_DATA
    phase2 := 5
    phase3 := 7 }

/- Projection lemmas: which decoder fields each operation leaves unchanged. -/

@[simp] theorem um_state (d : Decoder) (s : ℕ) :
    (decoder_update_magnitude d s).state = d.state := by
  simp only [decoder_update_magnitude]; split <;> split <;> rfl

@[simp] theorem um_polarity (d : Decoder) (s : ℕ) :
    (decoder_update_magnitude d s).polarity = d.polarity := by
  simp only [decoder_update_magnitude]; split <;> split <;> rfl

@[simp] theorem um_baseline (d : Decoder) (s : ℕ) :
    (decoder_update_magnitude d s).baseline = d.baseline := by
  simp only [decoder_update_magnitude]; split <;> split <;> rfl

@[simp] theorem um_phase (d : Decoder) (s : ℕ) :
    (decoder_update_magnitude d s).phase = d.phase := by
  simp only [decoder_update_magnitude]; split <;> split <;> rfl

@[simp] theorem um_fourier (d : Decoder) (s : ℕ) :
    (decoder_update_magnitude d s).fourier = d.fourier := by
  simp only [decoder_update_magnitude]; split <;> split <;> rfl

@[simp] theorem um_signal_max (d : Decoder) (s : ℕ) :
    (decoder_update_magnitude d s).signal_max = max d.signal_max s := by
  simp only [decoder_update_magnitude]
  split <;> split <;> simp_all <;> omega

@[simp] theorem um_signal_min (d : Decoder) (s : ℕ) :
    (decoder_update_magnitude d s).signal_min = min d.signal_min s := by
  simp only [decoder_update_magnitude]
  split <;> split <;> simp_all <;> omega

@[simp] theorem ddb_state (d : Decoder) (s : ℝ) :
    (decoder_decode_byte d s).1.state = d.state := by
  simp only [decoder_decode_byte]
  split
  · split <;> rfl
  · rfl

@[simp] theorem ddb_polarity (d : Decoder) (s : ℝ) :
    (decoder_decode_byte d s).1.polarity = d.polarity := by
  simp only [decoder_decode_byte]
  split
  · split <;> rfl
  · rfl

@[simp] theorem ddb_baseline (d : Decoder) (s : ℝ) :
    (decoder_decode_byte d s).1.baseline = d.baseline := by
  simp only [decoder_decode_byte]
  split
  · split <;> rfl
  · rfl

@[simp] theorem ddb_signal_max (d : Decoder) (s : ℝ) :
    (decoder_decode_byte d s).1.signal_max = d.signal_max := by
  simp only [decoder_decode_byte]
  split
  · split <;> rfl
  · rfl

@[simp] theorem ddb_signal_min (d : Decoder) (s : ℝ) :
    (decoder_decode_byte d s).1.signal_min = d.signal_min := by
  simp only [decoder_decode_byte]
  split
  · split <;> rfl
  · rfl

@[simp] theorem ddb_phase2 (d : Decoder) (s : ℝ) :
    (decoder_decode_byte d s).1.phase2 = d.phase2 := by
  simp only [decoder_decode_byte]
  split
  · split <;> rfl
  · rfl

@[simp] theorem ddb_phase3 (d : Decoder) (s : ℝ) :
    (decoder_decode_byte d s).1.phase3 = d.phase3 := by
  simp only [decoder_decode_byte]
  split
  · split <;> rfl
  · rfl

@[simp] theorem ddb_sample_count (d : Decoder) (s : ℝ) :
    (decoder_decode_byte d s).1.fourier.sample_count = d.fourier.sample_count := by
  simp only [decoder_decode_byte]
  split
  · split <;> rfl
  · rfl

@[simp] theorem drift_state (d : Decoder) : (drift_correct d).state = d.state := by
  simp only [drift_correct]; split <;> rfl

@[simp] theorem drift_polarity (d : Decoder) : (drift_correct d).polarity = d.polarity := by
  simp only [drift_correct]; split <;> rfl

@[simp] theorem drift_baseline (d : Decoder) : (drift_correct d).baseline = d.baseline := by
  simp only [drift_correct]; split <;> rfl

@[simp] theorem drift_signal_max (d : Decoder) : (drift_correct d).signal_max = d.signal_max := by
  simp only [drift_correct]; split <;> rfl

@[simp] theorem drift_signal_min (d : Decoder) : (drift_correct d).signal_min = d.signal_min := by
  simp only [drift_correct]; split <;> rfl

@[simp] theorem drift_phase (d : Decoder) : (drift_correct d).phase = d.phase := by
  simp only [drift_correct]; split <;> rfl

@[simp] theorem dwfh_signal_max (d : Decoder) (s : ℕ) :
    (detect_wave_first_half d s).signal_max = max d.signal_max s := by
  simp only [detect_wave_first_half]
  split <;> split <;> simp

@[simp] theorem dwfh_signal_min (d : Decoder) (s : ℕ) :
    (detect_wave_first_half d s).signal_min = min d.signal_min s := by
  simp only [detect_wave_first_half]
  split <;> split <;> simp

theorem dwfh_state (d : Decoder) (s : ℕ) :
    (detect_wave_first_half d s).state = d.state ∨
    (detect_wave_first_half d s).state = DState.DECODER_DETECT_WAVE_SECOND_HALF := by
  simp only [detect_wave_first_half]
  split <;> split <;> simp

/-- Sign characterization of the drift-correction guard of decoder_decode. -/
theorem drift_cond_iff (p p2 p3 : ℤ) :
    (p ≠ 0 ∧ p2 ≠ 0 ∧ p3 ≠ 0 ∧ ((p < 0) ↔ (p2 < 0)) ∧ ((p2 < 0) ↔ (p3 < 0))) ↔
    ((0 < p ∧ 0 < p2 ∧ 0 < p3) ∨ (p < 0 ∧ p2 < 0 ∧ p3 < 0)) := by
  omega

/-- testBit characterization of the thresholding fold inside decode_byte_bits. -/
theorem decode_fold_testBit (frequency : ℕ → ℝ) (l : List ℕ) (b j : ℕ) :
    (Nat.testBit
      (l.foldl
        (fun byte f =>
          if frequency f > 0.5 * 0.5 then byte ||| (1 <<< (BIT_COUNT - f - 1)) else byte) b) j
      = true) ↔
    (Nat.testBit b j = true ∨ ∃ f ∈ l, j = BIT_COUNT - f - 1 ∧ frequency f > 0.5 * 0.5) := by
  induction l generalizing b with
  | nil => simp
  | cons f l ih =>
    simp only [List.foldl_cons, List.mem_cons]
    by_cases hc : frequency f > 0.5 * 0.5
    · rw [if_pos hc, ih]
      simp only [Nat.testBit_or, Nat.one_shiftLeft, Nat.testBit_two_pow, Bool.or_eq_true,
        decide_eq_true_eq]
      constructor
      · rintro ((hb | hj) | ⟨g, hg, hjg, hcg⟩)
        · exact Or.inl hb
        · exact Or.inr ⟨f, Or.inl rfl, hj.symm, hc⟩
        · exact Or.inr ⟨g, Or.inr hg, hjg, hcg⟩
      · rintro (hb | ⟨g, (rfl | hg), hjg, hcg⟩)
        · exact Or.inl (Or.inl hb)
        · exact Or.inl (Or.inr hjg.symm)
        · exact Or.inr ⟨g, hg, hjg, hcg⟩
    · rw [if_neg hc, ih]
      constructor
      · rintro (hb | ⟨g, hg, hjg, hcg⟩)
        · exact Or.inl hb
        · exact Or.inr ⟨g, Or.inr hg, hjg, hcg⟩
      · rintro (hb | ⟨g, (rfl | hg), hjg, hcg⟩)
        · exact Or.inl hb
        · exact absurd hcg hc
        · exact Or.inr ⟨g, hg, hjg, hcg⟩

/-- decode_byte_bits sets bit 8-k exactly when carrier k's power is above
the threshold. -/
theorem decode_byte_bits_testBit (frequency : ℕ → ℝ) (k : ℕ) (hk : k < BIT_COUNT) :
    (Nat.testBit (decode_byte_bits frequency) (8 - k) = true ↔
      frequency k > 0.5 * 0.5) := by
  unfold decode_byte_bits
  rw [decode_fold_testBit]
  simp only [Nat.zero_testBit, Bool.false_eq_true, false_or, List.mem_range]
  constructor
  · rintro ⟨f, hf, hj, hP⟩
    have hfk : f = k := by
      simp only [BIT_COUNT] at hf hk hj
      omega
    rwa [hfk] at hP
  · intro h
    refine ⟨k, ?_, ?_, h⟩
    · exact hk
    · simp only [BIT_COUNT] at hk ⊢
      omega

/-- C3: the demodulator of decoder_decode_byte sets bit 8-f of the 9-bit
value exactly when carrier f's accumulated power, the sum of the squares of
its sine and cosine accumulators, exceeds the fixed power threshold 0.25;
in particular a single carrier with power slightly above 0.25 sets its bit
and one slightly below clears it. -/
theorem claim_C3_power_threshold (fo : Fourier) (f : ℕ) (hf : f < BIT_COUNT) :
    (Nat.testBit (decode_byte_bits (fourier_to_frequency fo)) (8 - f) = true ↔
      (fo.sincos_components f).1 ^ 2 + (fo.sincos_components f).2 ^ 2 > (0.25 : ℝ)) := by
  rw [decode_byte_bits_testBit _ f hf]
  simp only [fourier_to_frequency, quad, ← pow_two]
  norm_num

/-- Witness for C3 at carrier 0 of a concrete analyzer. -/
theorem claim_C3_power_threshold_witness :
    (Nat.testBit (decode_byte_bits (fourier_to_frequency fourier_unit0)) (8 - 0) = true ↔
      (fourier_unit0.sincos_components 0).1 ^ 2 + (fourier_unit0.sincos_components 0).2 ^ 2
        > (0.25 : ℝ)) :=
  claim_C3_power_threshold fourier_unit0 0 (by decide)

/-- Bridge: the C test byte & 0x100 is the test on bit 8 of byte. -/
theorem and_mask_testBit (n b : ℕ) : (n &&& (1 <<< b) ≠ 0) ↔ n.testBit b = true := by
  rw [Nat.one_shiftLeft, Nat.and_two_pow]
  cases h : n.testBit b <;> simp [h]

/-- C4: on the sample that completes a window, decoder_decode_byte stores as
the phase offset, when the pilot bit (bit 8) of the demodulated value is set,
the pilot accumulator pair's angle atan2(cos, sin) normalized to a fraction
of one cycle and rounded to a signed sample count relative to the current
window length; when the pilot bit is clear it stores exactly zero. -/
theorem claim_C4_pilot_phase (d : Decoder) (s : ℝ)
    (hc : ((d.fourier.i : ℤ) + 1) ≥ d.fourier.sample_count) :
    (decoder_decode_byte d s).1.phase =
      if Nat.testBit
           (decode_byte_bits (fourier_to_frequency (fourier_add_sample d.fourier s).1)) 8 then
        cround (atan2 ((fourier_add_sample d.fourier s).1.sincos_components 0).2
                      ((fourier_add_sample d.fourier s).1.sincos_components 0).1
                / (2 * π) * (((fourier_add_sample d.fourier s).1.sample_count : ℤ) : ℝ))
      else 0 := by
  have hfa : (fourier_add_sample d.fourier s).2 = true := by
    simp only [fourier_add_sample, decide_eq_true_eq]
    exact hc
  simp only [decoder_decode_byte, hfa, if_true, sincos_to_phase]
  split <;>
    exact if_congr
      (by rw [show (256 : ℕ) = 1 <<< 8 from rfl]; exact and_mask_testBit _ 8) rfl rfl

/-- Witness for C4 at a concrete window-completing decoder. -/
theorem claim_C4_pilot_phase_witness :
    (decoder_decode_byte window_complete_example 0).1.phase =
      if Nat.testBit
           (decode_byte_bits (fourier_to_frequency
             (fourier_add_sample window_complete_example.fourier 0).1)) 8 then
        cround (atan2
                 ((fourier_add_sample window_complete_example.fourier 0).1.sincos_components 0).2
                 ((fourier_add_sample window_complete_example.fourier 0).1.sincos_components 0).1
                / (2 * π)
                * (((fourier_add_sample window_complete_example.fourier 0).1.sample_count : ℤ) : ℝ))
      else 0 :=
  claim_C4_pilot_phase window_complete_example 0 (by decide)

/-- C8: once the decoder has reached DECODER_EOF, decoder_decode returns
DECODER_RET_EOF and leaves the whole decoder state unchanged, so the decoder
never leaves the Eof state. -/
theorem claim_C8_eof_absorbing (d : Decoder) (x : ℕ) (h : d.state = DState.DECODER_EOF) :
    decoder_decode d x = (d, DECODER_RET_EOF) := by
  unfold decoder_decode
  rw [h]

/-- Witness for C8 at a concrete decoder in the Eof state. -/
theorem claim_C8_eof_absorbing_witness :
    decoder_decode { decoder_init with state := DState.DECODER_EOF } 123 =
      ({ decoder_init with state := DState.DECODER_EOF }, DECODER_RET_EOF) :=
  claim_C8_eof_absorbing { decoder_init with state := DState.DECODER_EOF } 123 rfl

/-- Adding the zero sample to an all-zero analyzer leaves every accumulator
pair zero. -/
theorem fourier_add_sample_zero (fo : Fourier)
    (h : ∀ f, fo.sincos_components f = (0, 0)) :
    ∀ f, (fourier_add_sample fo 0).1.sincos_components f = (0, 0) := by
  intro f
  simp [fourier_add_sample, h f]

/-- decode_byte_bits yields 0 when no carrier power is above the threshold. -/
theorem decode_byte_bits_eq_zero (frequency : ℕ → ℝ)
    (h : ∀ f, f < BIT_COUNT → ¬ frequency f > 0.5 * 0.5) :
    decode_byte_bits frequency = 0 := by
  apply Nat.eq_of_testBit_eq
  intro j
  rw [Nat.zero_testBit, ← Bool.not_eq_true]
  intro hb
  rcases (decode_fold_testBit frequency (List.range BIT_COUNT) 0 j).mp hb with h0 | ⟨f, hf, _, hc⟩
  · simp at h0
  · exact h f (List.mem_range.mp hf) hc

/-- C7: in the DECODER_DETECT_CALIBRATE state, when demodulation runs and
yields the end-of-stream symbol, decoder_decode treats it as a false lock:
it resets the state machine to DECODER_INIT and returns DECODER_RET_NO_DATA
rather than end-of-stream. -/
theorem claim_C7_false_lock (d : Decoder) (x : ℕ)
    (hs : d.state = DState.DECODER_DETECT_CALIBRATE)
    (hp : ¬ d.phase < 0)
    (he : (decoder_decode_byte d (normalized_sample d x)).2 = DECODER_RET_EOF) :
    (decoder_decode d x).1.state = DState.DECODER_INIT ∧
    (decoder_decode d x).2 = DECODER_RET_NO_DATA := by
  simp [decoder_decode, hs, hp, he]

/-- On that decoder, feeding the raw sample 0 completes the window and
demodulates the end-of-stream symbol. -/
theorem calibrate_example_demod_eof :
    (decoder_decode_byte calibrate_example (normalized_sample calibrate_example 0)).2
      = DECODER_RET_EOF := by
  have hns : normalized_sample calibrate_example 0 = 0 := by
    norm_num [normalized_sample, calibrate_example, decoder_init]
  rw [hns]
  have hz : ∀ f, (fourier_add_sample calibrate_example.fourier 0).1.sincos_components f = (0, 0) :=
    fourier_add_sample_zero _ (fun _ => rfl)
  have hb : decode_byte_bits
      (fourier_to_frequency (fourier_add_sample calibrate_example.fourier 0).1) = 0 := by
    apply decode_byte_bits_eq_zero
    intro f _
    rw [fourier_to_frequency]
    rw [hz f]
    norm_num [quad]
  have hfa : (fourier_add_sample calibrate_example.fourier 0).2 = true := by
    simp [fourier_add_sample, calibrate_example]
  simp [decoder_decode_byte, hfa, hb]

/-- Witness for C7: the concrete calibrating decoder resets to DECODER_INIT
and reports no data. -/
theorem claim_C7_false_lock_witness :
    (decoder_decode calibrate_example 0).1.state = DState.DECODER_INIT ∧
    (decoder_decode calibrate_example 0).2 = DECODER_RET_NO_DATA :=
  claim_C7_false_lock calibrate_example 0 rfl (by decide) calibrate_example_demod_eof

/-- detect_wave_first_half never moves a non-calibrating decoder into the
calibrate state. -/
theorem dwfh_not_calibrate (d : Decoder) (s : ℕ)
    (h : d.state ≠ DState.DECODER_DETECT_CALIBRATE) :
    (detect_wave_first_half d s).state ≠ DState.DECODER_DETECT_CALIBRATE := by
  rcases dwfh_state d s with h2 | h2 <;> rw [h2] <;> simp_all

/-- C6 as stated is refuted by the initial decoder itself: it is reachable
and its analyzer's window length is 0, not at least 19. -/
theorem claim_C6_window_min_cex :
    ¬ (∀ d : Decoder, Reachable d → (SAMPLE_COUNT_MIN : ℤ) ≤ d.fourier.sample_count) :=
  fun h => absurd (h decoder_init Reachable.init) (by decide)

/-- C6 amended: whenever a decoder_decode step moves the decoder into the
DECODER_DETECT_CALIBRATE state from a different state, the analyzer's window
length is at least SAMPLE_COUNT_MIN = 19. -/
theorem claim_C6_window_floor (d : Decoder) (x : ℕ)
    (h0 : d.state ≠ DState.DECODER_DETECT_CALIBRATE)
    (h1 : (decoder_decode d x).1.state = DState.DECODER_DETECT_CALIBRATE) :
    (SAMPLE_COUNT_MIN : ℤ) ≤ (decoder_decode d x).1.fourier.sample_count := by
  cases hs : d.state with
  | DECODER_INIT =>
      exfalso
      simp [decoder_decode, hs] at h1
  | DECODER_DETECT_POLARITY =>
      exfalso
      simp only [decoder_decode, hs] at h1
      split at h1
      · exact dwfh_not_calibrate
          { decoder_update_magnitude d x with
              polarity := decide ((x : ℤ) - (d.baseline : ℤ) > 0)
              state := DState.DECODER_DETECT_WAVE_FIRST_HALF
              signal_max := (decoder_update_magnitude d x).baseline
              signal_min := (decoder_update_magnitude d x).baseline } x
          (by simp) (by simpa using h1)
      · simp [hs] at h1
  | DECODER_DETECT_WAVE_FIRST_HALF =>
      exfalso
      simp only [decoder_decode, hs] at h1
      exact dwfh_not_calibrate d x (by rw [hs]; simp) (by simpa using h1)
  | DECODER_DETECT_WAVE_SECOND_HALF =>
      simp only [decoder_decode, hs] at h1 ⊢
      split at h1
      case isTrue hcond =>
        rw [if_pos hcond]
        dsimp only
        simp only [SAMPLE_COUNT_MIN, BIT_COUNT, um_fourier]
        split <;> omega
      case isFalse hcond =>
        exfalso
        simp [hs] at h1
  | DECODER_DETECT_CALIBRATE => exact absurd hs h0
  | DECODER_DECODE_DATA =>
      exfalso
      simp only [decoder_decode, hs] at h1
      repeat' split at h1
      all_goals simp_all
  | DECODER_EOF =>
      exfalso
      simp [decoder_decode, hs] at h1

/-- One decoder_decode step preserves the magnitude-range invariant. -/
theorem magnitude_inv_step (d : Decoder) (x : ℕ) (ih : MagnitudeInv d) :
    MagnitudeInv (decoder_decode d x).1 := by
  intro hmem
  cases hs : d.state with
  | DECODER_INIT =>
      exfalso
      simp [decoder_decode, hs] at hmem
  | DECODER_DETECT_POLARITY =>
      simp only [decoder_decode, hs] at hmem ⊢
      split at hmem
      case isTrue hcond =>
        rw [if_pos hcond]
        dsimp only
        simp only [dwfh_signal_min, dwfh_signal_max, um_baseline]
        simp only [TIMING_SIGNAL_THRESHOLD] at hcond
        omega
      case isFalse hcond =>
        exfalso
        simp [hs] at hmem
  | DECODER_DETECT_WAVE_FIRST_HALF =>
      have hb := ih (by rw [hs]; simp)
      simp only [decoder_decode, hs]
      try dsimp only
      simp only [dwfh_signal_min, dwfh_signal_max]
      omega
  | DECODER_DETECT_WAVE_SECOND_HALF =>
      have hb := ih (by rw [hs]; simp)
      simp only [decoder_decode, hs]
      try dsimp only
      split <;> try dsimp only
      all_goals simp only [um_signal_min, um_signal_max]
      all_goals omega
  | DECODER_DETECT_CALIBRATE =>
      have hb := ih (by rw [hs]; simp)
      simp only [decoder_decode, hs]
      try dsimp only
      repeat' split
      all_goals try dsimp only
      all_goals
        try simp only [ddb_signal_min, ddb_signal_max, drift_signal_min, drift_signal_max]
      all_goals omega
  | DECODER_DECODE_DATA =>
      have hb := ih (by rw [hs]; simp)
      simp only [decoder_decode, hs]
      try dsimp only
      repeat' split
      all_goals try dsimp only
      all_goals
        try simp only [ddb_signal_min, ddb_signal_max, drift_signal_min, drift_signal_max]
      all_goals omega
  | DECODER_EOF =>
      have hb := ih (by rw [hs]; simp)
      simp only [decoder_decode, hs]
      exact hb

/-- Every reachable decoder satisfies the magnitude-range invariant. -/
theorem reachable_magnitude_inv (d : Decoder) (hr : Reachable d) : MagnitudeInv d := by
  induction hr with
  | init =>
      intro hmem
      simp [decoder_init] at hmem
  | step d x hx hd ih => exact magnitude_inv_step d x ih

/-- C10: in every reachable decoder state at or past calibration,
signal_max - signal_min exceeds the timing threshold 64, so the
normalization divisor used for the normalized sample is strictly positive. -/
theorem claim_C10_normalization_range (d : Decoder) (hr : Reachable d)
    (hs : d.state = DState.DECODER_DETECT_CALIBRATE ∨
          d.state = DState.DECODER_DECODE_DATA ∨ d.state = DState.DECODER_EOF) :
    d.signal_min + 64 < d.signal_max ∧
    (0 : ℝ) < (d.signal_max : ℝ) - (d.signal_min : ℝ) := by
  have h1 : d.signal_min + 64 < d.signal_max := reachable_magnitude_inv d hr (by tauto)
  refine ⟨h1, ?_⟩
  have h2 : (d.signal_min : ℝ) < (d.signal_max : ℝ) := by
    exact_mod_cast Nat.lt_of_le_of_lt (Nat.le_add_right _ 64) h1
  linarith

/-- Witness for C10: a concrete four-sample prefix that reaches the
calibrate state. -/
theorem claim_C10_normalization_range_witness :
    ((decoder_decode (decoder_decode (decoder_decode (decoder_decode
        decoder_init 500).1 600).1 400).1 600).1.signal_min + 64 <
      (decoder_decode (decoder_decode (decoder_decode (decoder_decode
        decoder_init 500).1 600).1 400).1 600).1.signal_max) ∧
    (0 : ℝ) <
      ((decoder_decode (decoder_decode (decoder_decode (decoder_decode
          decoder_init 500).1 600).1 400).1 600).1.signal_max : ℝ) -
      ((decoder_decode (decoder_decode (decoder_decode (decoder_decode
          decoder_init 500).1 600).1 400).1 600).1.signal_min : ℝ) :=
  claim_C10_normalization_range _
    (Reachable.step _ 600 (by decide) (Reachable.step _ 400 (by decide)
      (Reachable.step _ 600 (by decide) (Reachable.step _ 500 (by decide) Reachable.init))))
    (Or.inl (by decide))

/-- Witness for the amended C6 at a concrete locking step. -/
theorem claim_C6_window_floor_witness :
    (SAMPLE_COUNT_MIN : ℤ) ≤ (decoder_decode second_half_example 600).1.fourier.sample_count :=
  claim_C6_window_floor second_half_example 600 (by decide) (by decide)

/-- C9: write_sample clamps its amplitude argument to [-1, 1]: any input
above 1 produces exactly the bytes of input 1, and any input below -1
produces exactly the bytes of input -1. -/
theorem claim_C9_clamp (x : ℝ) :
    (x > 1 → write_sample x = write_sample 1) ∧
    (x < -1 → write_sample x = write_sample (-1)) := by
  constructor
  · intro hx
    have h1 : ¬ (1 : ℝ) > 1 := by norm_num
    have h2 : ¬ (1 : ℝ) < -1 := by norm_num
    simp only [write_sample, if_pos hx, if_neg h1, if_neg h2]
  · intro hx
    have h0 : ¬ x > 1 := by linarith
    have h1 : ¬ (-1 : ℝ) > 1 := by norm_num
    have h2 : ¬ (-1 : ℝ) < -1 := by norm_num
    simp only [write_sample, if_neg h0, if_pos hx, if_neg h1, if_neg h2]

/-- Witness for C9: inputs 1.5 and -2 reproduce the samples of 1 and -1. -/
theorem claim_C9_clamp_witness :
    write_sample 1.5 = write_sample 1 ∧ write_sample (-2) = write_sample (-1) :=
  ⟨(claim_C9_clamp 1.5).1 (by norm_num), (claim_C9_clamp (-2)).2 (by norm_num)⟩

/-- C2 amended: in the symbol the encoder synthesizes, tone index f (0..8)
has frequency f+1 cycles per window and is present exactly when bit 8-f of
the 9-bit symbol value is set; equivalently, the bit-b tone of print_byte
(frequency BIT_COUNT-b) is the tone of index 8-b. -/
theorem claim_C2_tone_map (ch : ℕ) (amp : ℝ) (t : ℕ) :
    print_byte_sample ch amp t =
      amp * ∑ f ∈ Finset.range BIT_COUNT,
        (if ch.testBit (8 - f)
         then Real.sin (2 * π * ((f : ℝ) + 1) * (t : ℝ) / (SAMPLE_COUNT : ℝ))
         else 0) := by
  unfold print_byte_sample
  congr 1
  refine Finset.sum_nbij' (fun b => 8 - b) (fun f => 8 - f) ?_ ?_ ?_ ?_ ?_
  · intro a ha
    simp only [Finset.mem_range, BIT_COUNT] at *
    omega
  · intro a ha
    simp only [Finset.mem_range, BIT_COUNT] at *
    omega
  · intro a ha
    simp only [Finset.mem_range, BIT_COUNT] at ha
    show 8 - (8 - a) = a
    omega
  · intro a ha
    simp only [Finset.mem_range, BIT_COUNT] at ha
    show 8 - (8 - a) = a
    omega
  · intro b hb
    simp only [Finset.mem_range, BIT_COUNT] at hb
    show (if ch &&& (1 <<< b) ≠ 0
          then Real.sin (2 * π * ((BIT_COUNT - b : ℕ) : ℝ) * (t : ℝ) / (SAMPLE_COUNT : ℝ))
          else 0) =
        (if ch.testBit (8 - (8 - b))
         then Real.sin (2 * π * (((8 - b : ℕ) : ℝ) + 1) * (t : ℝ) / (SAMPLE_COUNT : ℝ))
         else 0)
    have h1 : 8 - (8 - b) = b := by omega
    have h2 : ((BIT_COUNT - b : ℕ) : ℝ) = (((8 - b : ℕ) : ℝ) + 1) := by
      have h3 : (BIT_COUNT - b : ℕ) = (8 - b) + 1 := by
        simp only [BIT_COUNT]
        omega
      rw [h3]
      push_cast
      ring
    rw [h1, h2]
    exact if_congr (and_mask_testBit ch b) rfl rfl

/-- C2 as stated is false: with tone index f paired with bit 8-f, the tone
frequency is f+1 cycles per window, not 9-f; at symbol 0x100 and sample
t = 2 the two formulas give different sample values. -/
theorem claim_C2_tone_map_cex :
    ¬ (print_byte_sample 256 1 2 =
        1 * ∑ f ∈ Finset.range BIT_COUNT,
          (if (256 : ℕ).testBit (8 - f)
           then Real.sin (2 * π * ((BIT_COUNT - f : ℕ) : ℝ) * (2 : ℝ) / (SAMPLE_COUNT : ℝ))
           else 0)) := by
  intro h
  have hL : print_byte_sample 256 1 2 = Real.sin (2 * π * 2 / 20) := by
    unfold print_byte_sample
    simp +decide [BIT_COUNT, SAMPLE_COUNT, SAMPLE_COUNT_MIN, Finset.sum_range_succ]
  have hR : (1 : ℝ) * (∑ f ∈ Finset.range BIT_COUNT,
      (if (256 : ℕ).testBit (8 - f)
       then Real.sin (2 * π * ((BIT_COUNT - f : ℕ) : ℝ) * (2 : ℝ) / (SAMPLE_COUNT : ℝ))
       else 0)) = Real.sin (2 * π * 9 * 2 / 20) := by
    simp +decide [BIT_COUNT, SAMPLE_COUNT, SAMPLE_COUNT_MIN, Finset.sum_range_succ]
  rw [hL, hR] at h
  have h1 : 2 * π * (2 : ℝ) / 20 = π / 5 := by ring
  have h2 : 2 * π * (9 : ℝ) * 2 / 20 = -(π / 5) + 2 * π := by ring
  rw [h1, h2, Real.sin_add_two_pi, Real.sin_neg] at h
  have hpos : 0 < Real.sin (π / 5) :=
    Real.sin_pos_of_pos_of_lt_pi (by positivity) (by linarith [Real.pi_pos])
  linarith

/-- Adding the zero sample leaves the accumulator array unchanged. -/
theorem fourier_add_sample_zero_sample (fo : Fourier) :
    (fourier_add_sample fo 0).1.sincos_components = fo.sincos_components := by
  funext f
  simp [fourier_add_sample]

/-- On an all-zero accumulator array a completing zero sample demodulates the
end-of-stream symbol with a zero phase measurement. -/
theorem demod_zero_eof (d : Decoder)
    (hfa : (fourier_add_sample d.fourier 0).2 = true)
    (hz : ∀ f, d.fourier.sincos_components f = (0, 0)) :
    (decoder_decode_byte d 0).2 = DECODER_RET_EOF ∧
    (decoder_decode_byte d 0).1.phase = 0 := by
  have hb0 : decode_byte_bits (fourier_to_frequency (fourier_add_sample d.fourier 0).1) = 0 := by
    apply decode_byte_bits_eq_zero
    intro f _
    rw [fourier_to_frequency, fourier_add_sample_zero_sample, hz f]
    norm_num [quad]
  constructor
  · simp [decoder_decode_byte, hfa, hb0]
  · simp [decoder_decode_byte, hfa, hb0]

/-- Contract of the drift-correction block drift_correct: shared sign fires
the window-length correction and zeroes the middle slot, anything else
shifts the history. -/
theorem drift_correct_spec (d : Decoder) :
    (((0 < d.phase ∧ 0 < d.phase2 ∧ 0 < d.phase3) ∨
      (d.phase < 0 ∧ d.phase2 < 0 ∧ d.phase3 < 0)) →
       (drift_correct d).fourier.sample_count
           = d.fourier.sample_count - Int.tdiv (d.phase + d.phase2 + d.phase3) 3 ∧
       (drift_correct d).phase2 = 0 ∧ (drift_correct d).phase3 = d.phase3)
    ∧ (¬ ((0 < d.phase ∧ 0 < d.phase2 ∧ 0 < d.phase3) ∨
          (d.phase < 0 ∧ d.phase2 < 0 ∧ d.phase3 < 0)) →
       (drift_correct d).phase3 = d.phase2 ∧ (drift_correct d).phase2 = d.phase ∧
       (drift_correct d).fourier.sample_count = d.fourier.sample_count) := by
  unfold drift_correct
  split
  case isTrue h =>
    have hsx := (drift_cond_iff d.phase d.phase2 d.phase3).mp h
    exact ⟨fun _ => ⟨rfl, rfl, rfl⟩, fun hn => absurd hsx hn⟩
  case isFalse h =>
    have hsx := fun hc => h ((drift_cond_iff d.phase d.phase2 d.phase3).mpr hc)
    exact ⟨fun hc => absurd hc hsx, fun _ => ⟨rfl, rfl, rfl⟩⟩

/-- C5 amended: after every completed demodulation that yields a byte
(result at least 0) while calibrating or decoding, the current phase
measurement and the two stored ones drive the drift correction: if all
three are nonzero and share one sign, the window length shrinks by their
truncated-integer average and the middle history slot is zeroed; otherwise
the history is shifted, discarding the oldest measurement and storing the
current one as most recent. -/
theorem claim_C5_drift_correction (d : Decoder) (x : ℕ)
    (hs : d.state = DState.DECODER_DETECT_CALIBRATE ∨ d.state = DState.DECODER_DECODE_DATA)
    (hp : ¬ d.phase < 0)
    (hb : (decoder_decode_byte d (normalized_sample d x)).2 ≥ 0) :
    (((0 < (decoder_decode_byte d (normalized_sample d x)).1.phase ∧
       0 < d.phase2 ∧ 0 < d.phase3) ∨
      ((decoder_decode_byte d (normalized_sample d x)).1.phase < 0 ∧
       d.phase2 < 0 ∧ d.phase3 < 0)) →
      (decoder_decode d x).1.fourier.sample_count
        = d.fourier.sample_count
          - Int.tdiv ((decoder_decode_byte d (normalized_sample d x)).1.phase
                      + d.phase2 + d.phase3) 3 ∧
      (decoder_decode d x).1.phase2 = 0 ∧
      (decoder_decode d x).1.phase3 = d.phase3)
    ∧ (¬ ((0 < (decoder_decode_byte d (normalized_sample d x)).1.phase ∧
           0 < d.phase2 ∧ 0 < d.phase3) ∨
          ((decoder_decode_byte d (normalized_sample d x)).1.phase < 0 ∧
           d.phase2 < 0 ∧ d.phase3 < 0)) →
      (decoder_decode d x).1.phase3 = d.phase2 ∧
      (decoder_decode d x).1.phase2 = (decoder_decode_byte d (normalized_sample d x)).1.phase ∧
      (decoder_decode d x).1.fourier.sample_count = d.fourier.sample_count) := by
  have hne : ¬ ((decoder_decode_byte d (normalized_sample d x)).2 = DECODER_RET_EOF) := by
    simp only [DECODER_RET_EOF]
    omega
  have hd := drift_correct_spec (decoder_decode_byte d (normalized_sample d x)).1
  simp only [ddb_phase2, ddb_phase3, ddb_sample_count] at hd
  rcases hs with hs | hs
  · simp only [decoder_decode, hs]
    rw [if_neg hp, if_neg hne, if_pos hb]
    constructor
    · intro hC
      have h1 := hd.1 hC
      split <;> split <;> simp_all
    · intro hC
      have h1 := hd.2 hC
      split <;> split <;> simp_all
  · simp only [decoder_decode, hs]
    rw [if_neg hp, if_neg hne, if_pos hb]
    constructor
    · intro hC
      have h1 := hd.1 hC
      split <;> simp_all
    · intro hC
      have h1 := hd.2 hC
      split <;> simp_all

theorem drift_example_ns : normalized_sample drift_example 0 = 0 := by
  norm_num [normalized_sample, drift_example, decoder_init]

theorem drift_example_byte_pos :
    (decoder_decode_byte drift_example (normalized_sample drift_example 0)).2 ≥ 0 := by
  rw [drift_example_ns]
  have hfa : (fourier_add_sample drift_example.fourier 0).2 = true := by
    simp [fourier_add_sample, drift_example]
  have hbyte : decode_byte_bits
      (fourier_to_frequency (fourier_add_sample drift_example.fourier 0).1) ≠ 0 := by
    intro h0
    have h8 := (decode_byte_bits_testBit
        (fourier_to_frequency (fourier_add_sample drift_example.fourier 0).1) 0
        (by norm_num [BIT_COUNT])).mpr ?_
    · rw [h0] at h8
      simp at h8
    · rw [fourier_to_frequency, fourier_add_sample_zero_sample]
      norm_num [drift_example, quad]
  simp only [decoder_decode_byte, hfa, if_true]
  rw [if_neg hbyte]
  exact Int.natCast_nonneg _

/-- Witness for the amended C5: with stored history (0, 7) the correction
does not fire and the history shifts. -/
theorem claim_C5_drift_correction_witness :
    (decoder_decode drift_example 0).1.phase3 = drift_example.phase2 ∧
    (decoder_decode drift_example 0).1.phase2
      = (decoder_decode_byte drift_example (normalized_sample drift_example 0)).1.phase ∧
    (decoder_decode drift_example 0).1.fourier.sample_count
      = drift_example.fourier.sample_count :=
  (claim_C5_drift_correction drift_example 0 (Or.inl rfl) (by decide)
      drift_example_byte_pos).2
    (by rintro (⟨_, h, _⟩ | ⟨_, h, _⟩) <;> revert h <;> decide)

theorem data_eof_example_ns : normalized_sample data_eof_example 0 = 0 := by
  norm_num [normalized_sample, data_eof_example, calibrate_example, decoder_init]

theorem data_eof_example_demod :
    (decoder_decode_byte data_eof_example (normalized_sample data_eof_example 0)).2
        = DECODER_RET_EOF ∧
    (decoder_decode_byte data_eof_example (normalized_sample data_eof_example 0)).1.phase
        = 0 := by
  rw [data_eof_example_ns]
  exact demod_zero_eof data_eof_example
    (by simp [fourier_add_sample, data_eof_example, calibrate_example]) (fun _ => rfl)

/-- C5 as stated is false: at this decoder a demodulation completes in the
decoding state with a zero phase measurement, so the claim requires the
history to shift, yet the code leaves the history untouched because the
demodulated symbol is end of stream. -/
theorem claim_C5_drift_correction_cex :
    data_eof_example.state = DState.DECODER_DECODE_DATA ∧
    ¬ data_eof_example.phase < 0 ∧
    ((data_eof_example.fourier.i : ℤ) + 1 ≥ data_eof_example.fourier.sample_count) ∧
    (decoder_decode_byte data_eof_example (normalized_sample data_eof_example 0)).1.phase
        = 0 ∧
    ¬ ((decoder_decode data_eof_example 0).1.phase3 = data_eof_example.phase2) := by
  refine ⟨rfl, by decide, by decide, data_eof_example_demod.2, ?_⟩
  have hsd : data_eof_example.state = DState.DECODER_DECODE_DATA := rfl
  have hval : (decoder_decode data_eof_example 0).1.phase3 = 7 := by
    simp only [decoder_decode, hsd]
    rw [if_neg (by decide : ¬ data_eof_example.phase < 0)]
    rw [data_eof_example_demod.1]
    rw [if_pos rfl]
    rw [if_neg (by decide : ¬ (DECODER_RET_EOF ≥ (0 : ℤ)))]
    simp only [ddb_phase3]
    rfl
  rw [hval]
  decide

end D2S2D
